import Mathlib

/-!
Shallow embedding of the gptengage invocation and orchestration engine
(Rust sources under src/), together with theorems checking the
natural-language specification against the code.

Conventions of the embedding:
* Rust `String` is Lean `String`; character-level operations (split, trim,
  find) are carried out on `String.data : List Char`, matching Rust's
  `char`-based iteration (the characters sliced at in the sources are all
  ASCII, so byte indices and char indices agree at every slice boundary).
* Fallible Rust functions returning `anyhow::Result<T>` become
  `Except String T`, the error message being the formatted anyhow message.
* External effects (spawning processes, the serde JSON decoder, the plugin
  files loaded from disk) are passed in as explicit parameters, so that the
  pure control flow of the source is the object of study.
-/

/-- Whitespace predicate of Rust `char::is_whitespace` (the Unicode
White_Space property), used by `str::trim`. -/
def rustIsWhitespace (c : Char) : Bool :=
  let n := c.toNat
  (0x09 ≤ n && n ≤ 0x0D) || n = 0x20 || n = 0x85 || n = 0xA0 ||
  n = 0x1680 || (0x2000 ≤ n && n ≤ 0x200A) || n = 0x2028 || n = 0x2029 ||
  n = 0x202F || n = 0x205F || n = 0x3000

/-- Rust `str::trim` on a character list: strip leading and trailing
whitespace. -/
def rustTrimList (cs : List Char) : List Char :=
  ((cs.dropWhile rustIsWhitespace).reverse.dropWhile rustIsWhitespace).reverse

/-- Rust `str::trim` on strings. -/
def rustTrim (s : String) : String :=
  ⟨rustTrimList s.data⟩

/-- Rust `str::split(pat: char)`: cut the character list at every occurrence
of `c`, keeping empty pieces (so `n` separators yield `n + 1` pieces). -/
def splitChar (c : Char) : List Char → List (List Char)
  | [] => [[]]
  | x :: xs =>
    if x = c then
      [] :: splitChar c xs
    else
      match splitChar c xs with
      | [] => [[x]]
      | s :: rest => (x :: s) :: rest

/-- Rust `char::to_lowercase` restricted to ASCII, which is exhaustive for
the alphabets compared against in the sources (the built-in backend ids). -/
def rustLowerChar (c : Char) : Char :=
  if 'A' ≤ c && c ≤ 'Z' then Char.ofNat (c.toNat + 32) else c

/-- Rust `str::to_lowercase`. -/
def rustLower (s : String) : String :=
  ⟨s.data.map rustLowerChar⟩

/-- Access mode for invoked CLIs (src/invokers/mod.rs). -/
inductive AccessMode where
  | ReadOnly
  | WorkspaceWrite
deriving DecidableEq, Repr

/-- Full agent definition with persona, instructions, and metadata
(src/orchestrator/debate.rs). -/
structure AgentDefinition where
  cli : String
  persona : String
  instructions : String
  expertise : List String
  communication_style : Option String
deriving DecidableEq, Repr

/-- A debate participant (src/orchestrator/debate.rs). -/
structure Participant where
  cli : String
  persona : Option String
  agent_definition : Option AgentDefinition
deriving DecidableEq, Repr

/-- One successful invocation in one round (src/orchestrator/debate.rs). -/
structure RoundResponse where
  cli : String
  persona : Option String
  response : String
deriving DecidableEq, Repr

/-- Synthesis of a debate (src/orchestrator/debate.rs). -/
structure Synthesis where
  summary : String
  consensus_points : List String
  disagreement_points : List String
  key_insights : List String
  recommendation : Option String
deriving DecidableEq, Repr

/-- Result of a debate (src/orchestrator/debate.rs). -/
structure DebateResult where
  gptengage_version : Option String
  topic : String
  rounds : List (List RoundResponse)
  synthesis : Option Synthesis
deriving DecidableEq, Repr

/-- The crate version baked in through the CARGO_PKG_VERSION environment
variable at build time; its concrete value is irrelevant to every claim. -/
def cargoPkgVersion : String := "0.1.0"

/-- Participant::display_name (src/orchestrator/debate.rs): the backend id,
or the backend id followed by the persona in parentheses. -/
def Participant.display_name (p : Participant) : String :=
  match p.persona with
  | some per => p.cli ++ " (" ++ per ++ ")"
  | none => p.cli

/-- RoundResponse::display_name (src/orchestrator/debate.rs). -/
def RoundResponse.display_name (r : RoundResponse) : String :=
  match r.persona with
  | some per => r.cli ++ " (" ++ per ++ ")"
  | none => r.cli

/-- Participant::build_prompt_with_persona (src/orchestrator/debate.rs):
wrap the base prompt in an agent-context block, a role-context block, or
return it unchanged. -/
def Participant.build_prompt_with_persona (p : Participant) (base_prompt : String) : String :=
  match p.agent_definition with
  | some agent_def =>
    "[AGENT CONTEXT]\n" ++
    "Role: " ++ agent_def.persona ++ "\n" ++
    "Instructions: " ++ agent_def.instructions ++ "\n" ++
    (if !agent_def.expertise.isEmpty then
      "Expertise: " ++ String.intercalate ", " agent_def.expertise ++ "\n"
    else "") ++
    (match agent_def.communication_style with
     | some style => "Communication Style: " ++ style ++ "\n"
     | none => "") ++
    "[/AGENT CONTEXT]\n\n" ++ base_prompt
  | none =>
    match p.persona with
    | some persona =>
      "[ROLE CONTEXT]\nYou are participating in this debate as a " ++ persona ++
      ". Respond from that perspective, drawing on the expertise, priorities, and viewpoints typical of this role.\n[/ROLE CONTEXT]\n\n" ++
      base_prompt
    | none => base_prompt

/-- Oracle for one resolved invoker: its availability and the outcome of
each invocation (prompt, timeout, access mode).  This stands for the
`Box<dyn Invoker>` trait object; the process side effects behind
`Invoker::invoke` are summarised by the function. -/
structure Invoker where
  isAvailable : Bool
  invoke : String → Nat → AccessMode → Except String String

/-- The base context built at the top of each round of
DebateOrchestrator::run_debate_with_participants
(src/orchestrator/debate.rs lines 233-248): topic and round header, then
for rounds after the first every previous-round response appended in order,
then the fixed instruction. -/
def buildBaseContext (topic : String) (round : Nat)
    (prevRound : Option (List RoundResponse)) : String :=
  let base := "Topic: " ++ topic ++ "\n\nRound " ++ toString round ++ "\n\n"
  let base :=
    if round > 1 then
      match prevRound with
      | some prev =>
        prev.foldl
          (fun acc resp => acc ++ (resp.display_name ++ ": " ++ resp.response ++ "\n\n"))
          (base ++ "Previous responses:\n")
      | none => base
    else base
  base ++ "Please provide your perspective on this topic."

/-- The context a round of the orchestrator hands to participants: the base
context built from the last accumulated round (`rounds.last()` in the
source). -/
def roundContext (topic : String) (round : Nat)
    (acc : List (List RoundResponse)) : String :=
  buildBaseContext topic round acc.getLast?

/-- One participant task of a round (the closure spawned at
src/orchestrator/debate.rs lines 257-292): resolve the invoker by backend
name, skip when unresolvable or unavailable, invoke with the rendered
prompt, and skip on invocation error. -/
def runParticipantTask (G : String → Option Invoker) (timeout : Nat)
    (access_mode : AccessMode) (p : Participant) (ctx : String) :
    Option RoundResponse :=
  match G p.cli with
  | none => none
  | some inv =>
    if !inv.isAvailable then none
    else
      match inv.invoke ctx timeout access_mode with
      | .ok response => some { cli := p.cli, persona := p.persona, response := response }
      | .error _ => none

/-- The responses collected in one round: one task per participant in
participant order (join_all preserves the order of the task vector), with
skipped participants contributing nothing (`flatten` on the options). -/
def collectRoundResponses (G : String → Option Invoker) (timeout : Nat)
    (access_mode : AccessMode) (ps : List Participant) (baseContext : String) :
    List RoundResponse :=
  ps.filterMap
    (fun p => runParticipantTask G timeout access_mode p (p.build_prompt_with_persona baseContext))

/-- The error message raised when a round produced zero responses
(src/orchestrator/debate.rs lines 304-309). -/
def noRespondersMsg (round : Nat) : String :=
  "No participants were able to respond in round " ++ toString round ++
  ". Please ensure their CLIs are installed and available."

/-- The round loop of DebateOrchestrator::run_debate_with_participants
(src/orchestrator/debate.rs lines 229-312), written as recursion on the
number of rounds still to run: build the context from the accumulated
rounds, collect the responses, fail when none were produced, otherwise
append the round and continue. -/
def runRoundsAux (G : String → Option Invoker) (topic : String)
    (ps : List Participant) (timeout : Nat) (access_mode : AccessMode) :
    Nat → Nat → List (List RoundResponse) →
    Except String (List (List RoundResponse))
  | 0, _, acc => .ok acc
  | remaining + 1, round, acc =>
    let ctx := roundContext topic round acc
    let round_responses := collectRoundResponses G timeout access_mode ps ctx
    if round_responses.isEmpty then
      .error (noRespondersMsg round)
    else
      runRoundsAux G topic ps timeout access_mode remaining (round + 1) (acc ++ [round_responses])

/-- DebateOrchestrator::run_debate_with_participants
(src/orchestrator/debate.rs lines 216-320).  `G` is the invoker-resolution
environment standing for `get_invoker` together with each resolved
invoker's availability and invocation outcomes. -/
def run_debate_with_participants (G : String → Option Invoker)
    (topic : String) (participants : List Participant) (num_rounds : Nat)
    (timeout : Nat) (access_mode : AccessMode) : Except String DebateResult :=
  if participants.isEmpty then
    .error "At least one participant is required"
  else
    match runRoundsAux G topic participants timeout access_mode num_rounds 1 [] with
    | .error e => .error e
    | .ok rounds =>
      .ok { gptengage_version := some cargoPkgVersion, topic := topic,
            rounds := rounds, synthesis := none }

/-- AgentDefinition::validate (src/orchestrator/debate.rs lines 23-44):
cli, persona and instructions must be non-empty after trimming, and the
instructions field must be at least 10 bytes long (Rust `String::len` is
the UTF-8 byte length). -/
def AgentDefinition.validate (a : AgentDefinition) : Except String Unit :=
  if (rustTrimList a.cli.data).isEmpty then
    .error "Agent \x27cli\x27 field cannot be empty"
  else if (rustTrimList a.persona.data).isEmpty then
    .error "Agent \x27persona\x27 field cannot be empty (required for agent definitions)"
  else if (rustTrimList a.instructions.data).isEmpty then
    .error "Agent \x27instructions\x27 field cannot be empty (required for agent definitions)"
  else if a.instructions.utf8ByteSize < 10 then
    .error ("Agent \x27instructions\x27 must be at least 10 characters (got " ++
            toString a.instructions.utf8ByteSize ++ ")")
  else .ok ()

/-- Agent file schema (src/orchestrator/debate.rs lines 57-64). -/
structure AgentFile where
  schema_version : String
  generated_by : Option String
  participants : List AgentDefinition
deriving DecidableEq, Repr

/-- The serde default for an absent schema_version field
(src/orchestrator/debate.rs lines 66-68). -/
def default_schema_version : String := "1.0"

/-- The participant validation loop of AgentFile::load
(src/orchestrator/debate.rs lines 94-98), indexing its error message from
1. -/
def validateParticipants : List AgentDefinition → Nat → Except String Unit
  | [], _ => .ok ()
  | agent :: rest, idx =>
    match agent.validate with
    | .error e =>
      .error ("Validation failed for participant " ++ toString (idx + 1) ++ ": " ++ e)
    | .ok _ => validateParticipants rest (idx + 1)

/-- AgentFile::load (src/orchestrator/debate.rs lines 72-101) after the
filesystem read: `parsed` is the outcome of the serde_json parse of the
file content (an absent schema_version field parses to
`default_schema_version`); the function then checks the schema version,
non-emptiness, and every participant. -/
def AgentFile.load (parsed : Except String AgentFile) : Except String AgentFile :=
  match parsed with
  | .error e => .error ("Failed to parse agent file: " ++ e)
  | .ok agent_file =>
    if agent_file.schema_version ≠ "1.0" then
      .error ("Unsupported schema version \x27" ++ agent_file.schema_version ++
              "\x27. Expected \x271.0\x27")
    else if agent_file.participants.isEmpty then
      .error "Agent file must contain at least one participant"
    else
      match validateParticipants agent_file.participants 0 with
      | .error e => .error e
      | .ok _ => .ok agent_file

/-- One segment of the participants string, after trimming and the split on
a colon (the match at src/commands/debate.rs lines 27-46). -/
def segToParticipant (t : List Char) : Participant :=
  match splitChar ':' t with
  | [c] => { cli := ⟨c⟩, persona := none, agent_definition := none }
  | [c, p] => { cli := ⟨c⟩, persona := some ⟨p⟩, agent_definition := none }
  | _ => { cli := ⟨t⟩, persona := none, agent_definition := none }

/-- The segment loop of parse_participants (src/commands/debate.rs lines
21-47): trim each comma-separated segment, skip empty ones, map one-part
segments to a bare participant, two-part segments to cli plus persona, and
fail on three or more parts. -/
def parseSegments : List (List Char) → Except String (List Participant)
  | [] => .ok []
  | seg :: rest =>
    let t := rustTrimList seg
    if t.isEmpty then parseSegments rest
    else
      match splitChar ':' t with
      | [c] =>
        (parseSegments rest).map
          (fun ps => { cli := ⟨c⟩, persona := none, agent_definition := none } :: ps)
      | [c, p] =>
        (parseSegments rest).map
          (fun ps => { cli := ⟨c⟩, persona := some ⟨p⟩, agent_definition := none } :: ps)
      | _ =>
        .error ("Invalid participant format \x27" ++ (⟨t⟩ : String) ++
                "\x27. Expected \x27cli\x27 or \x27cli:persona\x27")

/-- parse_participants (src/commands/debate.rs lines 18-54): split the
input on commas, process the segments, and require at least one
participant. -/
def parse_participants (s : String) : Except String (List Participant) :=
  match parseSegments (splitChar ',' s.data) with
  | .error e => .error e
  | .ok participants =>
    if participants.isEmpty then
      .error "At least one participant is required"
    else .ok participants

/-- The opening-brace character, written by code point to keep brace
characters out of string literals. -/
def lbrace : Char := Char.ofNat 123

/-- The closing-brace character. -/
def rbrace : Char := Char.ofNat 125

/-- Rust `str::find(char)`: index of the first occurrence. -/
def findIdxFirst (c : Char) (cs : List Char) : Option Nat :=
  cs.findIdx? (· = c)

/-- Rust `str::rfind(char)`: index of the last occurrence. -/
def findIdxLast (c : Char) (cs : List Char) : Option Nat :=
  match cs.reverse.findIdx? (· = c) with
  | some i => some (cs.length - 1 - i)
  | none => none

/-- The degraded synthesis built when no JSON object can be decoded from a
response (src/orchestrator/debate.rs lines 411-417). -/
def degradedSynthesis (response : String) : Synthesis :=
  { summary := rustTrim response, consensus_points := [],
    disagreement_points := [], key_insights := [], recommendation := none }

/-- The span-extraction attempt of DebateOrchestrator::parse_synthesis_response
(src/orchestrator/debate.rs lines 396-408).  `decode` is the serde_json
decoder for the Synthesis shape, passed in as the external JSON library;
the response is sliced from the first opening brace to the last closing
brace (both ASCII, so char indices coincide with the byte indices used by
the source) when the first lies strictly before the last. -/
def synthesisAttempt (decode : String → Option Synthesis)
    (response : String) : Option Synthesis :=
  match findIdxFirst lbrace response.data, findIdxLast rbrace response.data with
  | some start, some stop =>
    if start < stop then
      decode ⟨(response.data.drop start).take (stop + 1 - start)⟩
    else none
  | _, _ => none

/-- The fallback structure of DebateOrchestrator::parse_synthesis_response:
return the decoded Synthesis when the span attempt succeeds, the degraded
one otherwise; both sides are Ok. -/
def parse_synthesis_response (decode : String → Option Synthesis)
    (response : String) : Except String Synthesis :=
  match synthesisAttempt decode response with
  | some syn => .ok syn
  | none => .ok (degradedSynthesis response)

/-- How the prompt is passed to a plugin CLI (src/plugins/mod.rs). -/
inductive PromptMode where
  | Stdin
  | Arg
  | ArgLast
deriving DecidableEq, Repr

/-- Plugin metadata (src/plugins/mod.rs). -/
structure PluginMeta where
  name : String
  description : String
  command : String
deriving DecidableEq, Repr

/-- Invocation configuration of a plugin (src/plugins/mod.rs). -/
structure InvokeConfig where
  base_args : List String
  prompt_mode : PromptMode
  prompt_arg : Option String
deriving DecidableEq, Repr

/-- Access mode arguments of a plugin (src/plugins/mod.rs). -/
structure AccessConfig where
  readonly_args : List String
  write_args : List String
deriving DecidableEq, Repr

/-- CLI detection configuration of a plugin (src/plugins/mod.rs). -/
structure DetectionConfig where
  check_command : String
  check_args : List String
deriving DecidableEq, Repr

/-- Plugin configuration loaded from a TOML file (src/plugins/mod.rs). -/
structure PluginConfig where
  plugin : PluginMeta
  invoke : InvokeConfig
  access : AccessConfig
  detection : DetectionConfig
deriving DecidableEq, Repr

/-- The names reserved for the built-in backends (src/invokers/mod.rs and
src/plugins/mod.rs line 156). -/
def builtinNames : List String := ["claude", "codex", "gemini"]

/-- PluginManager::validate_plugin (src/plugins/mod.rs lines 146-165):
reject an empty name, an empty command, and a name that equals a built-in
backend id case-insensitively. -/
def validate_plugin (config : PluginConfig) : Except String Unit :=
  if config.plugin.name = "" then
    .error "Plugin name cannot be empty"
  else if config.plugin.command = "" then
    .error "Plugin command cannot be empty"
  else if builtinNames.contains (rustLower config.plugin.name) then
    .error ("Plugin name \x27" ++ config.plugin.name ++ "\x27 conflicts with built-in CLI")
  else .ok ()

/-- An invoker as resolved by get_invoker: one of the three built-ins, or a
plugin invoker built from a loaded descriptor. -/
inductive ResolvedInvoker where
  | claude
  | codex
  | gemini
  | plugin (config : PluginConfig)
deriving DecidableEq, Repr

/-- PluginManager::get_plugin (src/plugins/mod.rs lines 168-170): exact
lookup by name in the loaded map.  The HashMap keyed by plugin name is
modelled as the list of loaded configurations, looked up by exact name
equality. -/
def get_plugin (plugins : List PluginConfig) (name : String) : Option PluginConfig :=
  plugins.find? (fun c => c.plugin.name = name)

/-- get_invoker (src/invokers/mod.rs lines 59-71): match the lowercased
name against the three built-ins, otherwise look up a loaded plugin by
exact name.  `plugins` is the plugin set loaded by PluginManager::new from
disk. -/
def get_invoker (plugins : List PluginConfig) (name : String) : Option ResolvedInvoker :=
  if rustLower name = "claude" then some .claude
  else if rustLower name = "codex" then some .codex
  else if rustLower name = "gemini" then some .gemini
  else
    match get_plugin plugins name with
    | some config => some (.plugin config)
    | none => none

/-- The pure argument-vector and stdin computation of
PluginInvoker::invoke (src/invokers/plugin.rs lines 31-66): base_args,
then the access-mode arguments, then the prompt placed according to the
prompt mode; returns the final argument list and the stdin text handed to
execute_command. -/
def PluginInvoker.invocation (config : PluginConfig) (prompt : String)
    (access_mode : AccessMode) : List String × String :=
  let args := config.invoke.base_args ++
    (match access_mode with
     | .ReadOnly => config.access.readonly_args
     | .WorkspaceWrite => config.access.write_args)
  match config.invoke.prompt_mode with
  | .Stdin => (args, prompt)
  | .Arg =>
    let args :=
      match config.invoke.prompt_arg with
      | some arg => args ++ [arg]
      | none => args
    (args ++ [prompt], "")
  | .ArgLast => (args ++ [prompt], "")

/-- The Unicode replacement character emitted by lossy UTF-8 decoding. -/
def replacementChar : Char := Char.ofNat 0xFFFD

/-- Whether a byte is a UTF-8 continuation byte (0x80-0xBF). -/
def isCont (b : Nat) : Bool := 0x80 ≤ b && b ≤ 0xBF

/-- The valid second byte range of a three-byte sequence headed by `b0`
(0xE0 requires 0xA0-0xBF, 0xED requires 0x80-0x9F, the rest any
continuation byte). -/
def cont2Valid (b0 b1 : Nat) : Bool :=
  if b0 = 0xE0 then 0xA0 ≤ b1 && b1 ≤ 0xBF
  else if b0 = 0xED then 0x80 ≤ b1 && b1 ≤ 0x9F
  else isCont b1

/-- The valid second byte range of a four-byte sequence headed by `b0`
(0xF0 requires 0x90-0xBF, 0xF4 requires 0x80-0x8F, the rest any
continuation byte). -/
def cont3Valid (b0 b1 : Nat) : Bool :=
  if b0 = 0xF0 then 0x90 ≤ b1 && b1 ≤ 0xBF
  else if b0 = 0xF4 then 0x80 ≤ b1 && b1 ≤ 0x8F
  else isCont b1

/-- Decode one UTF-8 sequence headed by `b0` with lookahead `rest`:
returns the character produced (a scalar value on a valid sequence, the
replacement character on a maximal invalid subpart) and how many lookahead
bytes beyond `b0` the sequence consumed. -/
def utf8Seq (b0 : Nat) (rest : List Nat) : Nat × Char :=
  if b0 < 0x80 then (0, Char.ofNat b0)
  else if 0xC2 ≤ b0 && b0 ≤ 0xDF then
    match rest with
    | b1 :: _ =>
      if isCont b1 then (1, Char.ofNat ((b0 - 0xC0) * 64 + (b1 - 0x80)))
      else (0, replacementChar)
    | [] => (0, replacementChar)
  else if 0xE0 ≤ b0 && b0 ≤ 0xEF then
    match rest with
    | b1 :: b2 :: _ =>
      if cont2Valid b0 b1 then
        if isCont b2 then
          (2, Char.ofNat ((b0 - 0xE0) * 4096 + (b1 - 0x80) * 64 + (b2 - 0x80)))
        else (1, replacementChar)
      else (0, replacementChar)
    | [b1] => if cont2Valid b0 b1 then (1, replacementChar) else (0, replacementChar)
    | [] => (0, replacementChar)
  else if 0xF0 ≤ b0 && b0 ≤ 0xF4 then
    match rest with
    | b1 :: b2 :: b3 :: _ =>
      if cont3Valid b0 b1 then
        if isCont b2 then
          if isCont b3 then
            (3, Char.ofNat ((b0 - 0xF0) * 262144 + (b1 - 0x80) * 4096 +
                            (b2 - 0x80) * 64 + (b3 - 0x80)))
          else (2, replacementChar)
        else (1, replacementChar)
      else (0, replacementChar)
    | [b1, b2] =>
      if cont3Valid b0 b1 then
        if isCont b2 then (2, replacementChar) else (1, replacementChar)
      else (0, replacementChar)
    | [b1] => if cont3Valid b0 b1 then (1, replacementChar) else (0, replacementChar)
    | [] => (0, replacementChar)
  else (0, replacementChar)

/-- The decoding loop of lossy UTF-8 decoding, structurally recursive on a
fuel argument.  Every step consumes at least the head byte, so any fuel of
at least the byte count yields the full decoding (see utf8LossyGo_fuel). -/
def utf8LossyGo : Nat → List Nat → List Char
  | _, [] => []
  | 0, _ :: _ => []
  | fuel + 1, b0 :: rest =>
    let step := utf8Seq b0 rest
    step.2 :: utf8LossyGo fuel (rest.drop step.1)

/-- Rust `String::from_utf8_lossy`: decode a byte sequence to characters,
replacing every maximal invalid subpart with the replacement character and
resuming at the first byte not consumed by it. -/
def utf8Lossy (bs : List Nat) : List Char :=
  utf8LossyGo bs.length bs

/-- Fuel irrelevance: any fuel of at least the byte count decodes the whole
input, so utf8Lossy never truncates. -/
theorem utf8LossyGo_fuel (fuel fuel' : Nat) (bs : List Nat)
    (h : bs.length ≤ fuel) (h' : bs.length ≤ fuel') :
    utf8LossyGo fuel bs = utf8LossyGo fuel' bs := by
  induction fuel using Nat.strong_induction_on generalizing bs fuel' with
  | _ fuel ih =>
    cases bs with
    | nil => cases fuel <;> cases fuel' <;> rfl
    | cons b0 rest =>
      cases fuel with
      | zero => simp at h
      | succ f =>
        cases fuel' with
        | zero => simp at h'
        | succ f' =>
          simp only [utf8LossyGo]
          congr 1
          have hd : (rest.drop (utf8Seq b0 rest).1).length ≤ rest.length := by
            simp [List.length_drop]
          apply ih f (Nat.lt_succ_self f)
          · exact le_trans hd (Nat.le_of_succ_le_succ h)
          · exact le_trans hd (Nat.le_of_succ_le_succ h')

/-- Lossy UTF-8 decoding returning a string. -/
def utf8LossyString (bs : List Nat) : String :=
  ⟨utf8Lossy bs⟩

/-- How the external process behaves for one run of execute_command: it
either completes before the timer with an exit status and captured output
byte streams, or the timer of `timeout` seconds fires first. -/
inductive ProcBehavior where
  | completes (exitSuccess : Bool) (stdoutBytes : List Nat) (stderrBytes : List Nat)
  | timesOut
deriving DecidableEq, Repr

/-- execute_command (src/invokers/base.rs lines 7-67).  `pid` is what
`child.id()` returned after the spawn; `behavior` is which branch of the
select wins and with what process output.  The result pairs the returned
value with the process id a termination signal was sent to (none when no
signal was issued). -/
def execute_command (pid : Option Nat) (behavior : ProcBehavior)
    (timeout : Nat) : Except String String × Option Nat :=
  match behavior with
  | .completes success out err =>
    if success then (.ok (utf8LossyString out), none)
    else (.error ("Command failed: " ++ utf8LossyString err), none)
  | .timesOut =>
    (.error ("Command timed out after " ++ toString timeout ++ " seconds"), pid)

/-! Helper lemmas. -/

/-- Success of AgentDefinition::validate, characterised field by field. -/
theorem validate_ok_iff (a : AgentDefinition) :
    a.validate = .ok () ↔
      (rustTrimList a.cli.data ≠ [] ∧ rustTrimList a.persona.data ≠ [] ∧
       rustTrimList a.instructions.data ≠ [] ∧ 10 ≤ a.instructions.utf8ByteSize) := by
  unfold AgentDefinition.validate
  split_ifs with h1 h2 h3 h4 <;>
    simp_all [List.isEmpty_iff, Nat.not_lt]

/-- The participant loop of AgentFile::load succeeds exactly when every
participant validates, whatever the running index. -/
theorem validateParticipants_ok_iff (l : List AgentDefinition) (idx : Nat) :
    validateParticipants l idx = .ok () ↔ ∀ a ∈ l, a.validate = .ok () := by
  induction l generalizing idx with
  | nil => simp [validateParticipants]
  | cons agent rest ih =>
    cases h : agent.validate with
    | error e =>
      simp only [validateParticipants, h]
      constructor
      · intro hcontra; cases hcontra
      · intro hall
        have := hall agent (by simp)
        rw [h] at this
        cases this
    | ok u =>
      cases u
      simp only [validateParticipants, h]
      rw [ih]
      constructor
      · intro hall
        intro a ha
        rcases List.mem_cons.mp ha with rfl | ha'
        · exact h
        · exact hall a ha'
      · intro hall a ha
        exact hall a (List.mem_cons_of_mem _ ha)

/-- An agent definition passing validation (10-byte instructions). -/
def exampleGoodAgent : AgentDefinition :=
  { cli := "claude", persona := "critic", instructions := "be thorough", expertise := [],
    communication_style := none }

/-- An agent definition with a 5-character instructions field. -/
def exampleShortAgent : AgentDefinition :=
  { cli := "claude", persona := "critic", instructions := "short", expertise := [],
    communication_style := none }

/-- An agent definition whose instructions are 5 characters but 15 UTF-8
bytes. -/
def exampleMultibyteAgent : AgentDefinition :=
  { cli := "claude", persona := "critic", instructions := "日本語です", expertise := [],
    communication_style := none }

/-- C10: AgentDefinition::validate accepts exactly when cli, persona and
instructions are non-empty after trimming and the instructions field is at
least 10 bytes long; the length check counts UTF-8 bytes, not characters,
so a 5-character instructions string occupying 15 bytes is accepted while
a 5-character ASCII one is rejected. -/
theorem C10_agent_validate_byte_length :
    (∀ a : AgentDefinition, a.validate = .ok () ↔
      (rustTrimList a.cli.data ≠ [] ∧ rustTrimList a.persona.data ≠ [] ∧
       rustTrimList a.instructions.data ≠ [] ∧ 10 ≤ a.instructions.utf8ByteSize)) ∧
    exampleMultibyteAgent.validate = .ok () ∧
    exampleMultibyteAgent.instructions.data.length = 5 ∧
    exampleMultibyteAgent.instructions.utf8ByteSize = 15 ∧
    exampleShortAgent.validate ≠ .ok () ∧
    exampleShortAgent.instructions.data.length = 5 := by
  refine ⟨validate_ok_iff, ?_, ?_, ?_, ?_, ?_⟩
  · rw [validate_ok_iff]; decide
  · decide
  · decide
  · rw [Ne, validate_ok_iff]; decide
  · decide

/-- C6: AgentFile::load succeeds exactly when the file parses, the schema
version equals "1.0" (the serde default supplied for an absent field is
"1.0"), the participants list is non-empty, and every participant passes
validation; concretely, a schema_version "2.0" file fails, an empty
participants list fails, and a participant whose instructions field is 5
characters fails the at-least-10 validation. -/
theorem C6_agent_file_load :
    (∀ parsed : Except String AgentFile,
      (∃ f, AgentFile.load parsed = .ok f) ↔
      (∃ f, parsed = .ok f ∧ f.schema_version = "1.0" ∧ f.participants ≠ [] ∧
            ∀ a ∈ f.participants, a.validate = .ok ())) ∧
    default_schema_version = "1.0" ∧
    (∀ f : AgentFile, ∀ g, AgentFile.load (.ok f) = .ok g → g = f) ∧
    (∃ e, AgentFile.load (.ok { schema_version := "2.0", generated_by := none,
                                participants := [exampleGoodAgent] }) = .error e) ∧
    (∃ e, AgentFile.load (.ok { schema_version := "1.0", generated_by := none,
                                participants := [] }) = .error e) ∧
    (∃ e, AgentFile.load (.ok { schema_version := "1.0", generated_by := none,
                                participants := [exampleShortAgent] }) = .error e) := by
  have hchar : ∀ parsed : Except String AgentFile,
      (∃ f, AgentFile.load parsed = .ok f) ↔
      (∃ f, parsed = .ok f ∧ f.schema_version = "1.0" ∧ f.participants ≠ [] ∧
            ∀ a ∈ f.participants, a.validate = .ok ()) := by
    intro parsed
    cases parsed with
    | error e => simp [AgentFile.load]
    | ok f =>
      simp only [AgentFile.load]
      split_ifs with h1 h2
      · simp only [not_not] at h1
        constructor
        · rintro ⟨g, hg⟩; cases hg
        · rintro ⟨g, hg, hv, _⟩
          cases hg
          exact absurd hv h1
      · constructor
        · rintro ⟨g, hg⟩; cases hg
        · rintro ⟨g, hg, hv, hne, _⟩
          cases hg
          exact (hne (List.isEmpty_iff.mp h2)).elim
      · rcases hval : validateParticipants f.participants 0 with e | u
        · constructor
          · rintro ⟨g, hg⟩; simp [hval] at hg
          · rintro ⟨g, hg, hv, hne, hall⟩
            cases hg
            rw [(validateParticipants_ok_iff f.participants 0).mpr hall] at hval
            cases hval
        · cases u
          constructor
          · rintro ⟨g, hg⟩
            refine ⟨f, rfl, Classical.byContradiction (fun hv => h1 hv), ?_, ?_⟩
            · intro hnil
              exact h2 (List.isEmpty_iff.mpr hnil)
            · exact (validateParticipants_ok_iff f.participants 0).mp hval
          · intro _
            exact ⟨f, by simp [hval]⟩
  refine ⟨hchar, rfl, ?_, ?_, ?_, ?_⟩
  · intro f g hg
    simp only [AgentFile.load] at hg
    split_ifs at hg
    rcases hval : validateParticipants f.participants 0 with e | u <;> rw [hval] at hg
    · cases hg
    · cases hg; rfl
  · refine ⟨"Unsupported schema version \x272.0\x27. Expected \x271.0\x27", ?_⟩
    simp [AgentFile.load]
  · refine ⟨"Agent file must contain at least one participant", ?_⟩
    simp [AgentFile.load]
  · refine ⟨"Validation failed for participant 1: Agent \x27instructions\x27 must be at least 10 characters (got 5)", ?_⟩
    simp only [AgentFile.load]
    split_ifs with h1 h2
    · exact absurd rfl h1
    · simp [List.isEmpty_iff] at h2
    · have hv : exampleShortAgent.validate =
          .error "Agent \x27instructions\x27 must be at least 10 characters (got 5)" := rfl
      simp only [validateParticipants, hv]
      exact congrArg Except.error (by decide)

/-- The access-mode argument block appended by PluginInvoker::invoke. -/
def accessModeArgs (config : PluginConfig) (access_mode : AccessMode) : List String :=
  match access_mode with
  | .ReadOnly => config.access.readonly_args
  | .WorkspaceWrite => config.access.write_args

/-- C7: PluginInvoker::invoke builds the argument vector as base_args
followed by the access-mode arguments (readonly_args for ReadOnly,
write_args for WorkspaceWrite), then places the prompt according to the
prompt mode: Stdin passes the prompt as the process stdin with no prompt
argument; Arg appends the prompt_arg flag followed by the prompt with
empty stdin; ArgLast appends the prompt as the final positional argument
with empty stdin. -/
theorem C7_plugin_invocation (config : PluginConfig) (prompt : String)
    (access_mode : AccessMode) :
    (config.invoke.prompt_mode = .Stdin →
      PluginInvoker.invocation config prompt access_mode =
        (config.invoke.base_args ++ accessModeArgs config access_mode, prompt)) ∧
    (∀ flag, config.invoke.prompt_mode = .Arg → config.invoke.prompt_arg = some flag →
      PluginInvoker.invocation config prompt access_mode =
        (config.invoke.base_args ++ accessModeArgs config access_mode ++ [flag, prompt], "")) ∧
    (config.invoke.prompt_mode = .ArgLast →
      PluginInvoker.invocation config prompt access_mode =
        (config.invoke.base_args ++ accessModeArgs config access_mode ++ [prompt], "")) ∧
    accessModeArgs config .ReadOnly = config.access.readonly_args ∧
    accessModeArgs config .WorkspaceWrite = config.access.write_args := by
  refine ⟨?_, ?_, ?_, rfl, rfl⟩
  · intro hmode
    cases access_mode <;>
      simp [PluginInvoker.invocation, accessModeArgs, hmode]
  · intro flag hmode harg
    cases access_mode <;>
      simp [PluginInvoker.invocation, accessModeArgs, hmode, harg]
  · intro hmode
    cases access_mode <;>
      simp [PluginInvoker.invocation, accessModeArgs, hmode]

/-- An example plugin configuration in Arg prompt mode. -/
def exampleArgPlugin : PluginConfig :=
  { plugin := { name := "mycli", description := "demo", command := "mycli-bin" },
    invoke := { base_args := ["run"], prompt_mode := .Arg, prompt_arg := some "-p" },
    access := { readonly_args := ["--ro"], write_args := ["--rw"] },
    detection := { check_command := "mycli-bin", check_args := [] } }

/-- Witness for C7: the Arg-mode plugin places the flag and the prompt at
the end of the argument vector with empty stdin, in both access modes. -/
theorem C7_plugin_invocation_witness :
    PluginInvoker.invocation exampleArgPlugin "hello" .ReadOnly =
      (["run", "--ro", "-p", "hello"], "") ∧
    PluginInvoker.invocation exampleArgPlugin "hello" .WorkspaceWrite =
      (["run", "--rw", "-p", "hello"], "") := by
  constructor
  · have h := (C7_plugin_invocation exampleArgPlugin "hello" .ReadOnly).2.1 "-p" rfl rfl
    rw [h]; rfl
  · have h := (C7_plugin_invocation exampleArgPlugin "hello" .WorkspaceWrite).2.1 "-p" rfl rfl
    rw [h]; rfl

/-- C8: every run of execute_command ends in exactly one of three
outcomes: completion with success returns the full captured stdout lossily
decoded from its bytes and signals nothing; completion with failure
returns an error carrying the captured stderr and signals nothing; timer
expiry returns an error naming the timeout in seconds and sends the
best-effort termination signal to the saved child process id. -/
theorem C8_execute_command_outcomes (pid : Option Nat) (behavior : ProcBehavior)
    (timeout : Nat) :
    (∀ out err, behavior = .completes true out err →
      execute_command pid behavior timeout = (.ok (utf8LossyString out), none)) ∧
    (∀ out err, behavior = .completes false out err →
      execute_command pid behavior timeout =
        (.error ("Command failed: " ++ utf8LossyString err), none)) ∧
    (behavior = .timesOut →
      execute_command pid behavior timeout =
        (.error ("Command timed out after " ++ toString timeout ++ " seconds"), pid)) := by
  refine ⟨?_, ?_, ?_⟩
  · rintro out err rfl; rfl
  · rintro out err rfl; rfl
  · rintro rfl; rfl

/-- Witness for C8: a successful run returns the decoded stdout (including
a lossily replaced invalid byte), a failing run returns the stderr error,
and a timed-out run reports the timeout and signals the saved pid. -/
theorem C8_execute_command_outcomes_witness :
    execute_command (some 42) (.completes true [104, 105, 0xFF] []) 30 =
      (.ok ("hi" ++ ⟨[replacementChar]⟩), none) ∧
    execute_command (some 42) (.completes false [] [98, 97, 100]) 30 =
      (.error "Command failed: bad", none) ∧
    execute_command (some 42) .timesOut 30 =
      (.error "Command timed out after 30 seconds", some 42) := by
  refine ⟨?_, ?_, ?_⟩
  · have h := (C8_execute_command_outcomes (some 42)
      (.completes true [104, 105, 0xFF] []) 30).1 [104, 105, 0xFF] [] rfl
    rw [h]
    rfl
  · have h := (C8_execute_command_outcomes (some 42)
      (.completes false [] [98, 97, 100]) 30).2.1 [] [98, 97, 100] rfl
    rw [h]
    exact congrArg (fun s => ((Except.error s : Except String String), (none : Option Nat)))
      (by decide)
  · have h := (C8_execute_command_outcomes (some 42) .timesOut 30).2.2 rfl
    rw [h]
    exact congrArg (fun s => ((Except.error s : Except String String), (some 42 : Option Nat)))
      (by decide)

/-- A validated plugin never carries a name that collides case-insensitively
with a built-in backend id. -/
theorem validate_plugin_not_builtin (c : PluginConfig)
    (h : validate_plugin c = .ok ()) :
    builtinNames.contains (rustLower c.plugin.name) = false := by
  unfold validate_plugin at h
  split_ifs at h with g1 g2 g3
  exact Bool.eq_false_iff.mpr g3

/-- C5: get_invoker matches the name case-insensitively against the three
built-in backends first; a non-built-in name resolves to the loaded plugin
whose name equals it exactly, or to nothing; and because plugin validation
rejects any plugin whose name equals a built-in id case-insensitively, a
built-in name can never also resolve to a validated plugin, so every name
resolves to at most one invoker. -/
theorem C5_get_invoker_resolution (plugins : List PluginConfig) (name : String) :
    (rustLower name = "claude" → get_invoker plugins name = some .claude) ∧
    (rustLower name = "codex" → get_invoker plugins name = some .codex) ∧
    (rustLower name = "gemini" → get_invoker plugins name = some .gemini) ∧
    (builtinNames.contains (rustLower name) = false →
      get_invoker plugins name = (get_plugin plugins name).map .plugin) ∧
    (∀ c, get_plugin plugins name = some c → c.plugin.name = name) ∧
    ((∀ c ∈ plugins, validate_plugin c = .ok ()) →
      builtinNames.contains (rustLower name) = true →
      get_plugin plugins name = none) := by
  refine ⟨?_, ?_, ?_, ?_, ?_, ?_⟩
  · intro h; simp [get_invoker, h]
  · intro h
    have hne : rustLower name ≠ "claude" := by rw [h]; decide
    simp [get_invoker, h, hne]
  · intro h
    have hne : rustLower name ≠ "claude" := by rw [h]; decide
    have hne2 : rustLower name ≠ "codex" := by rw [h]; decide
    simp [get_invoker, h, hne, hne2]
  · intro h
    have h1 : rustLower name ≠ "claude" := by
      intro hc; rw [hc] at h; exact absurd h (by decide)
    have h2 : rustLower name ≠ "codex" := by
      intro hc; rw [hc] at h; exact absurd h (by decide)
    have h3 : rustLower name ≠ "gemini" := by
      intro hc; rw [hc] at h; exact absurd h (by decide)
    simp only [get_invoker, if_neg h1, if_neg h2, if_neg h3]
    cases hp : get_plugin plugins name <;> rfl
  · intro c hc
    have := List.find?_some hc
    simpa using this
  · intro hval hmem
    cases hfind : get_plugin plugins name with
    | none => rfl
    | some c =>
      exfalso
      have hname : c.plugin.name = name := by
        have := List.find?_some hfind
        simpa using this
      have hcmem : c ∈ plugins := List.mem_of_find?_eq_some hfind
      have hnb := validate_plugin_not_builtin c (hval c hcmem)
      rw [hname, hmem] at hnb
      cases hnb

/-- Witness for C5: the uppercase name CLAUDE resolves to the built-in
claude invoker even when an (invalid, built-in-colliding) plugin list is
loaded, and a non-built-in name resolves to the matching plugin. -/
theorem C5_get_invoker_resolution_witness :
    get_invoker [exampleArgPlugin] "CLAUDE" = some .claude ∧
    get_invoker [exampleArgPlugin] "mycli" = some (.plugin exampleArgPlugin) ∧
    get_plugin [exampleArgPlugin] "claude" = none := by
  refine ⟨?_, ?_, ?_⟩
  · exact (C5_get_invoker_resolution [exampleArgPlugin] "CLAUDE").1 (by decide)
  · have h := (C5_get_invoker_resolution [exampleArgPlugin] "mycli").2.2.2.1 (by decide)
    rw [h]; rfl
  · exact (C5_get_invoker_resolution [exampleArgPlugin] "claude").2.2.2.2.2
      (by intro c hc; simp only [List.mem_singleton] at hc; subst hc; rfl)
      (by decide)

/-- C4: parse_synthesis_response never returns an error: when the span of
the response from its first opening brace to its last closing brace
decodes as a Synthesis, that Synthesis is returned (so a synthesis object
embedded in prose parses, yielding its summary field); otherwise a
degraded Synthesis is returned whose summary is the trimmed response and
whose three lists are empty. -/
theorem C4_parse_synthesis_total (decode : String → Option Synthesis) (s : String) :
    (∃ syn, parse_synthesis_response decode s = .ok syn) ∧
    (∀ start stop syn,
      findIdxFirst lbrace s.data = some start →
      findIdxLast rbrace s.data = some stop →
      start < stop →
      decode ⟨(s.data.drop start).take (stop + 1 - start)⟩ = some syn →
      parse_synthesis_response decode s = .ok syn) ∧
    (synthesisAttempt decode s = none →
      parse_synthesis_response decode s = .ok (degradedSynthesis s)) ∧
    (∀ start stop,
      findIdxFirst lbrace s.data = some start →
      findIdxLast rbrace s.data = some stop →
      start < stop →
      decode ⟨(s.data.drop start).take (stop + 1 - start)⟩ = none →
      synthesisAttempt decode s = none) ∧
    (findIdxFirst lbrace s.data = none → synthesisAttempt decode s = none) ∧
    (findIdxLast rbrace s.data = none → synthesisAttempt decode s = none) := by
  refine ⟨?_, ?_, ?_, ?_, ?_, ?_⟩
  · unfold parse_synthesis_response
    cases synthesisAttempt decode s with
    | none => exact ⟨degradedSynthesis s, rfl⟩
    | some syn => exact ⟨syn, rfl⟩
  · intro start stop syn hf hl hlt hd
    have ha : synthesisAttempt decode s = some syn := by
      unfold synthesisAttempt
      rw [hf, hl]
      simp [hlt, hd]
    unfold parse_synthesis_response
    rw [ha]
  · intro ha
    unfold parse_synthesis_response
    rw [ha]
  · intro start stop hf hl hlt hd
    unfold synthesisAttempt
    rw [hf, hl]
    simp [hlt, hd]
  · intro hf
    unfold synthesisAttempt
    rw [hf]
  · intro hl
    unfold synthesisAttempt
    rw [hl]
    cases findIdxFirst lbrace s.data <;> rfl

/-- The JSON text used by the C4 witness: a synthesis object with summary
"ok" and empty lists, written with escaped braces. -/
def exampleSynthesisJson : String :=
  "\x7b\"summary\":\"ok\",\"consensus_points\":[],\"disagreement_points\":[],\"key_insights\":[]\x7d"

/-- A decoder oracle for the C4 witness, accepting exactly the example
synthesis object. -/
def exampleDecode (j : String) : Option Synthesis :=
  if j = exampleSynthesisJson then
    some { summary := "ok", consensus_points := [], disagreement_points := [],
           key_insights := [], recommendation := none }
  else none

/-- Witness for C4: the example synthesis object embedded in surrounding
prose parses to summary "ok", and plain text degrades to a Synthesis whose
summary is the trimmed text with empty lists. -/
theorem C4_parse_synthesis_total_witness :
    parse_synthesis_response exampleDecode ("around " ++ exampleSynthesisJson ++ " after") =
      .ok { summary := "ok", consensus_points := [], disagreement_points := [],
            key_insights := [], recommendation := none } ∧
    parse_synthesis_response exampleDecode "  just text  " =
      .ok { summary := "just text", consensus_points := [], disagreement_points := [],
            key_insights := [], recommendation := none } := by
  constructor
  · exact (C4_parse_synthesis_total exampleDecode
      ("around " ++ exampleSynthesisJson ++ " after")).2.1 7 87
      { summary := "ok", consensus_points := [], disagreement_points := [],
        key_insights := [], recommendation := none }
      (by decide) (by decide) (by decide) (by decide)
  · have hnone : findIdxFirst lbrace ("  just text  " : String).data = none := by decide
    have h := (C4_parse_synthesis_total exampleDecode "  just text  ").2.2.1
      ((C4_parse_synthesis_total exampleDecode "  just text  ").2.2.2.2.1 hnone)
    rw [h]
    exact congrArg Except.ok (by decide)

/-- splitChar always yields at least one piece. -/
theorem splitChar_ne_nil (c : Char) (l : List Char) : splitChar c l ≠ [] := by
  induction l with
  | nil => simp [splitChar]
  | cons x xs ih =>
    by_cases hx : x = c
    · simp [splitChar, hx]
    · simp only [splitChar, if_neg hx]
      cases hs : splitChar c xs with
      | nil => simp
      | cons s rest => simp

/-- splitChar yields one more piece than there are separators. -/
theorem length_splitChar (c : Char) (l : List Char) :
    (splitChar c l).length = l.count c + 1 := by
  induction l with
  | nil => simp [splitChar]
  | cons x xs ih =>
    by_cases hx : x = c
    · subst hx
      simp [splitChar, List.count_cons, ih]
    · simp only [splitChar, if_neg hx]
      cases hs : splitChar c xs with
      | nil => exact absurd hs (splitChar_ne_nil c xs)
      | cons s rest =>
        rw [hs] at ih
        simp only [List.length_cons] at ih ⊢
        rw [List.count_cons]
        simp [hx, ih]

/-- A list without the separator is a single piece. -/
theorem splitChar_of_not_mem (c : Char) (l : List Char) (h : c ∉ l) :
    splitChar c l = [l] := by
  induction l with
  | nil => rfl
  | cons x xs ih =>
    have hx : x ≠ c := fun hc => h (hc ▸ List.mem_cons_self x xs)
    have hxs : c ∉ xs := fun hc => h (List.mem_cons_of_mem x hc)
    simp [splitChar, hx, ih hxs]

/-- Splitting at the single separator between two clean halves yields
exactly those halves. -/
theorem splitChar_append_cons (c : Char) (a b : List Char) (ha : c ∉ a) :
    splitChar c (a ++ c :: b) = a :: splitChar c b := by
  induction a with
  | nil => simp [splitChar]
  | cons x xs ih =>
    have hx : x ≠ c := fun hc => ha (hc ▸ List.mem_cons_self x xs)
    have hxs : c ∉ xs := fun hc => ha (List.mem_cons_of_mem x hc)
    rw [List.cons_append, splitChar, if_neg hx, ih hxs]

/-- The segments of the participants string that survive trimming and the
empty-skip. -/
def cleanedSegs (segs : List (List Char)) : List (List Char) :=
  (segs.map rustTrimList).filter (fun t => !t.isEmpty)

/-- When every surviving segment splits into at most two parts, the
segment loop succeeds with the mapped participants. -/
theorem parseSegments_ok (segs : List (List Char))
    (h : ∀ t ∈ cleanedSegs segs, (splitChar ':' t).length ≤ 2) :
    parseSegments segs = .ok ((cleanedSegs segs).map segToParticipant) := by
  induction segs with
  | nil => rfl
  | cons seg rest ih =>
    by_cases ht : (rustTrimList seg).isEmpty
    · have hclean : cleanedSegs (seg :: rest) = cleanedSegs rest := by
        simp [cleanedSegs, ht]
      rw [hclean] at h ⊢
      simp only [parseSegments, if_pos ht]
      exact ih h
    · have hclean : cleanedSegs (seg :: rest) = rustTrimList seg :: cleanedSegs rest := by
        simp [cleanedSegs, ht]
      have hmem : rustTrimList seg ∈ cleanedSegs (seg :: rest) := by
        rw [hclean]; exact List.mem_cons_self _ _
      have hlen := h _ hmem
      have hrest : ∀ t ∈ cleanedSegs rest, (splitChar ':' t).length ≤ 2 := by
        intro t htmem
        exact h t (by rw [hclean]; exact List.mem_cons_of_mem _ htmem)
      rw [hclean, List.map_cons]
      simp only [parseSegments, if_neg ht]
      cases hs : splitChar ':' (rustTrimList seg) with
      | nil => exact absurd hs (splitChar_ne_nil _ _)
      | cons c cs =>
        cases cs with
        | nil =>
          rw [ih hrest]
          simp [Except.map, segToParticipant, hs]
        | cons p ps =>
          cases ps with
          | nil =>
            rw [ih hrest]
            simp [Except.map, segToParticipant, hs]
          | cons q qs =>
            rw [hs] at hlen
            simp at hlen

/-- When some surviving segment splits into three or more parts, the
segment loop fails. -/
theorem parseSegments_error (segs : List (List Char))
    (h : ∃ t ∈ cleanedSegs segs, 3 ≤ (splitChar ':' t).length) :
    ∃ e, parseSegments segs = .error e := by
  induction segs with
  | nil => simp [cleanedSegs] at h
  | cons seg rest ih =>
    by_cases ht : (rustTrimList seg).isEmpty
    · have hclean : cleanedSegs (seg :: rest) = cleanedSegs rest := by
        simp [cleanedSegs, ht]
      rw [hclean] at h
      simp only [parseSegments, if_pos ht]
      exact ih h
    · have hclean : cleanedSegs (seg :: rest) = rustTrimList seg :: cleanedSegs rest := by
        simp [cleanedSegs, ht]
      rw [hclean] at h
      simp only [parseSegments, if_neg ht]
      cases hs : splitChar ':' (rustTrimList seg) with
      | nil => exact absurd hs (splitChar_ne_nil _ _)
      | cons c cs =>
        cases cs with
        | nil =>
          obtain ⟨t, htmem, hlen⟩ := h
          rcases List.mem_cons.mp htmem with rfl | htrest
          · rw [hs] at hlen; simp at hlen
          · obtain ⟨e, he⟩ := ih ⟨t, htrest, hlen⟩
            exact ⟨e, by simp [he, Except.map]⟩
        | cons p ps =>
          cases ps with
          | nil =>
            obtain ⟨t, htmem, hlen⟩ := h
            rcases List.mem_cons.mp htmem with rfl | htrest
            · rw [hs] at hlen; simp at hlen
            · obtain ⟨e, he⟩ := ih ⟨t, htrest, hlen⟩
              exact ⟨e, by simp [he, Except.map]⟩
          | cons q qs => exact ⟨_, rfl⟩

/-- C9: parse_participants splits on commas, skips segments empty after
trimming, maps a colon-free segment to a bare participant and a
cli:persona segment to a participant with that persona, and errors exactly
when some surviving segment holds two or more colons or no surviving
segment exists. -/
theorem C9_parse_participants (s : String) :
    ((∃ e, parse_participants s = .error e) ↔
      ((∃ t ∈ cleanedSegs (splitChar ',' s.data), 2 ≤ t.count ':') ∨
       cleanedSegs (splitChar ',' s.data) = [])) ∧
    (∀ ps, parse_participants s = .ok ps →
      ps = (cleanedSegs (splitChar ',' s.data)).map segToParticipant) ∧
    (∀ t : List Char, ':' ∉ t →
      segToParticipant t = { cli := ⟨t⟩, persona := none, agent_definition := none }) ∧
    (∀ c p : List Char, ':' ∉ c → ':' ∉ p →
      segToParticipant (c ++ ':' :: p) =
        { cli := ⟨c⟩, persona := some ⟨p⟩, agent_definition := none }) := by
  have hcount : ∀ t : List Char, 3 ≤ (splitChar ':' t).length ↔ 2 ≤ t.count ':' := by
    intro t
    rw [length_splitChar]
    omega
  refine ⟨?_, ?_, ?_, ?_⟩
  · by_cases hbad : ∃ t ∈ cleanedSegs (splitChar ',' s.data), 3 ≤ (splitChar ':' t).length
    · obtain ⟨e, he⟩ := parseSegments_error _ hbad
      constructor
      · intro _
        left
        obtain ⟨t, htm, hlen⟩ := hbad
        exact ⟨t, htm, (hcount t).mp hlen⟩
      · intro _
        exact ⟨e, by simp [parse_participants, he]⟩
    · push_neg at hbad
      have hgood : ∀ t ∈ cleanedSegs (splitChar ',' s.data), (splitChar ':' t).length ≤ 2 := by
        intro t htm
        have := hbad t htm
        omega
      have hok := parseSegments_ok _ hgood
      by_cases hnil : cleanedSegs (splitChar ',' s.data) = []
      · constructor
        · intro _; right; exact hnil
        · intro _
          refine ⟨"At least one participant is required", ?_⟩
          simp [parse_participants, hok, hnil]
      · constructor
        · rintro ⟨e, he⟩
          exfalso
          have hne : ((cleanedSegs (splitChar ',' s.data)).map segToParticipant).isEmpty = false := by
            simp [List.isEmpty_iff, hnil]
          simp [parse_participants, hok, hne] at he
        · rintro (⟨t, htm, hc⟩ | hn)
          · exact absurd ((hcount t).mpr hc) (by have := hbad t htm; omega)
          · exact absurd hn hnil
  · intro ps hps
    by_cases hbad : ∃ t ∈ cleanedSegs (splitChar ',' s.data), 3 ≤ (splitChar ':' t).length
    · obtain ⟨e, he⟩ := parseSegments_error _ hbad
      simp [parse_participants, he] at hps
    · push_neg at hbad
      have hgood : ∀ t ∈ cleanedSegs (splitChar ',' s.data), (splitChar ':' t).length ≤ 2 := by
        intro t htm
        have := hbad t htm
        omega
      have hok := parseSegments_ok _ hgood
      simp only [parse_participants, hok] at hps
      by_cases hnil : ((cleanedSegs (splitChar ',' s.data)).map segToParticipant).isEmpty
      · rw [if_pos hnil] at hps; cases hps
      · rw [if_neg hnil] at hps
        cases hps
        rfl
  · intro t hmem
    simp [segToParticipant, splitChar_of_not_mem ':' t hmem]
  · intro c p hc hp
    simp [segToParticipant, splitChar_append_cons ':' c p hc, splitChar_of_not_mem ':' p hp]

/-- Witness for C9: an input with only empty segments fails, a colon-free
segment maps to a bare participant, and a one-colon segment maps to a
participant with a persona. -/
theorem C9_parse_participants_witness :
    (∃ e, parse_participants " , " = .error e) ∧
    segToParticipant ("codex".data) =
      { cli := "codex", persona := none, agent_definition := none } ∧
    segToParticipant ("claude".data ++ ':' :: "CEO".data) =
      { cli := "claude", persona := some "CEO", agent_definition := none } := by
  refine ⟨?_, ?_, ?_⟩
  · exact ((C9_parse_participants " , ").1).mpr (Or.inr (by decide))
  · exact (C9_parse_participants "").2.2.1 ("codex".data) (by decide)
  · exact (C9_parse_participants "").2.2.2 ("claude".data) ("CEO".data)
      (by decide) (by decide)

/-- C2: a round of run_debate_with_participants that produced zero
RoundResponses fails the whole debate with the error naming that round,
appending nothing; a round with at least one response appends exactly its
response list and proceeds to the next round; and a round-loop error is
surfaced verbatim by run_debate_with_participants. -/
theorem C2_no_responders_aborts (G : String → Option Invoker) (topic : String)
    (ps : List Participant) (timeout : Nat) (am : AccessMode)
    (remaining round : Nat) (acc : List (List RoundResponse)) :
    (collectRoundResponses G timeout am ps (roundContext topic round acc) = [] →
      runRoundsAux G topic ps timeout am (remaining + 1) round acc =
        .error (noRespondersMsg round)) ∧
    (collectRoundResponses G timeout am ps (roundContext topic round acc) ≠ [] →
      runRoundsAux G topic ps timeout am (remaining + 1) round acc =
        runRoundsAux G topic ps timeout am remaining (round + 1)
          (acc ++ [collectRoundResponses G timeout am ps (roundContext topic round acc)])) ∧
    (∀ num e, ps ≠ [] →
      runRoundsAux G topic ps timeout am num 1 [] = .error e →
      run_debate_with_participants G topic ps num timeout am = .error e) := by
  refine ⟨?_, ?_, ?_⟩
  · intro h
    simp only [runRoundsAux]
    rw [if_pos (List.isEmpty_iff.mpr h)]
  · intro h
    simp only [runRoundsAux]
    rw [if_neg (fun hc => h (List.isEmpty_iff.mp hc))]
  · intro num e hne herr
    simp only [run_debate_with_participants,
      if_neg (fun hc => hne (List.isEmpty_iff.mp hc)), herr]

/-- Witness for C2: with an environment resolving no backend, the single
participant produces no response, round 1 aborts the loop with the
round-1 message, and the debate surfaces that error. -/
theorem C2_no_responders_aborts_witness :
    runRoundsAux (fun _ => none) "T"
      [{ cli := "claude", persona := none, agent_definition := none }] 30 .ReadOnly 2 1 [] =
      .error (noRespondersMsg 1) ∧
    run_debate_with_participants (fun _ => none) "T"
      [{ cli := "claude", persona := none, agent_definition := none }] 2 30 .ReadOnly =
      .error (noRespondersMsg 1) := by
  have h1 := (C2_no_responders_aborts (fun _ => none) "T"
    [{ cli := "claude", persona := none, agent_definition := none }] 30 .ReadOnly 1 1 []).1
    (by decide)
  refine ⟨h1, ?_⟩
  exact (C2_no_responders_aborts (fun _ => none) "T"
    [{ cli := "claude", persona := none, agent_definition := none }] 30 .ReadOnly 1 1 []).2.2
    2 (noRespondersMsg 1) (by simp) h1

/-- The labelled form in which the orchestrator injects one prior response
into the next round's context. -/
def labelledResponse (resp : RoundResponse) : String :=
  resp.display_name ++ ": " ++ resp.response ++ "\n\n"

/-- Concatenation of a list of strings in order. -/
def strConcat : List String → String
  | [] => ""
  | x :: rest => x ++ strConcat rest

/-- The push_str loop over previous responses is the initial string
followed by the ordered concatenation of the labelled responses. -/
theorem foldl_labelled_eq (l : List RoundResponse) (init : String) :
    l.foldl (fun acc resp => acc ++ (resp.display_name ++ ": " ++ resp.response ++ "

")) init =
      init ++ strConcat (l.map labelledResponse) := by
  induction l generalizing init with
  | nil => simp [strConcat]
  | cons x xs ih =>
    simp only [List.foldl_cons, List.map_cons, strConcat]
    rw [ih, String.append_assoc]
    rfl

/-- Every member of a string list appears verbatim inside the ordered
concatenation. -/
theorem mem_strConcat (l : List String) (x : String) (h : x ∈ l) :
    ∃ pre post, strConcat l = pre ++ x ++ post := by
  induction l with
  | nil => cases h
  | cons y ys ih =>
    rcases List.mem_cons.mp h with rfl | hmem
    · exact ⟨"", strConcat ys, by simp [strConcat, String.empty_append]⟩
    · obtain ⟨pre, post, hp⟩ := ih hmem
      exact ⟨y ++ pre, post, by
        simp only [strConcat, hp]
        simp [String.append_assoc]⟩

/-- C3: for rounds after the first, the base context decomposes into the
topic header, the round number, the previous round's responses labelled by
display name in order, and the fixed instruction; every previous response
appears verbatim in it; the round-1 context carries no previous responses
whatever was accumulated; and the context the loop hands out depends only
on the topic, the round number, and the immediately preceding round. -/
theorem C3_context_injects_previous_round (topic : String) (r : Nat)
    (prev : List RoundResponse) :
    (1 < r →
      buildBaseContext topic r (some prev) =
        "Topic: " ++ topic ++ "\n\nRound " ++ toString r ++ "\n\n" ++
        "Previous responses:\n" ++ strConcat (prev.map labelledResponse) ++
        "Please provide your perspective on this topic.") ∧
    (1 < r → ∀ resp ∈ prev, ∃ pre post,
      buildBaseContext topic r (some prev) = pre ++ labelledResponse resp ++ post) ∧
    (∀ prevOpt : Option (List RoundResponse),
      buildBaseContext topic 1 prevOpt =
        "Topic: " ++ topic ++ "\n\nRound " ++ toString 1 ++ "\n\n" ++
        "Please provide your perspective on this topic.") ∧
    (∀ earlier : List (List RoundResponse),
      roundContext topic r (earlier ++ [prev]) = buildBaseContext topic r (some prev)) ∧
    (∀ resp : RoundResponse, labelledResponse resp =
      resp.display_name ++ ": " ++ resp.response ++ "\n\n") := by
  refine ⟨?_, ?_, ?_, ?_, fun _ => rfl⟩
  · intro hr
    simp only [buildBaseContext, if_pos hr]
    rw [foldl_labelled_eq]
  · intro hr resp hmem
    have hdec : buildBaseContext topic r (some prev) =
        ("Topic: " ++ topic ++ "\n\nRound " ++ toString r ++ "\n\n" ++
         "Previous responses:\n") ++ strConcat (prev.map labelledResponse) ++
        "Please provide your perspective on this topic." := by
      simp only [buildBaseContext, if_pos hr]
      rw [foldl_labelled_eq]
    obtain ⟨pre, post, hp⟩ :=
      mem_strConcat (prev.map labelledResponse) (labelledResponse resp)
        (List.mem_map_of_mem _ hmem)
    refine ⟨"Topic: " ++ topic ++ "\n\nRound " ++ toString r ++ "\n\n" ++
            "Previous responses:\n" ++ pre,
            post ++ "Please provide your perspective on this topic.", ?_⟩
    rw [hdec, hp]
    simp [String.append_assoc]
  · intro prevOpt
    simp [buildBaseContext]
  · intro earlier
    simp only [roundContext, List.getLast?_concat]

/-- The single previous-round response used by the C3 witness. -/
def exampleRoundResponse : RoundResponse :=
  { cli := "claude", persona := none, response := "R1" }

/-- Witness for C3: the round-2 context over one previous response is the
expected concrete string, that labelled response occurs verbatim inside
it, and round 1 ignores any accumulated rounds. -/
theorem C3_context_injects_previous_round_witness :
    buildBaseContext "T" 2 (some [exampleRoundResponse]) =
      "Topic: T\n\nRound 2\n\nPrevious responses:\nclaude: R1\n\nPlease provide your perspective on this topic." ∧
    (∃ pre post, buildBaseContext "T" 2 (some [exampleRoundResponse]) =
      pre ++ labelledResponse exampleRoundResponse ++ post) ∧
    roundContext "T" 2 ([[exampleRoundResponse], [exampleRoundResponse]] ++ [[exampleRoundResponse]]) =
      buildBaseContext "T" 2 (some [exampleRoundResponse]) := by
  refine ⟨?_, ?_, ?_⟩
  · have h := (C3_context_injects_previous_round "T" 2 [exampleRoundResponse]).1 (by decide)
    rw [h]
    decide
  · exact (C3_context_injects_previous_round "T" 2 [exampleRoundResponse]).2.1 (by decide)
      exampleRoundResponse (List.mem_cons_self _ _)
  · exact (C3_context_injects_previous_round "T" 2 [exampleRoundResponse]).2.2.2.1
      [[exampleRoundResponse], [exampleRoundResponse]]

/-- A participant whose backend resolves to an available invoker whose
every invocation succeeds always contributes a response carrying its own
backend id and persona. -/
theorem runParticipantTask_some (G : String → Option Invoker) (timeout : Nat)
    (am : AccessMode) (p : Participant) (ctx : String)
    (h : ∃ inv, G p.cli = some inv ∧ inv.isAvailable = true ∧
         ∀ prompt, ∃ r, inv.invoke prompt timeout am = .ok r) :
    ∃ resp, runParticipantTask G timeout am p ctx = some resp ∧
      resp.cli = p.cli ∧ resp.persona = p.persona := by
  obtain ⟨inv, hg, hav, hok⟩ := h
  obtain ⟨r, hr⟩ := hok ctx
  refine ⟨{ cli := p.cli, persona := p.persona, response := r }, ?_, rfl, rfl⟩
  simp [runParticipantTask, hg, hav, hr]

/-- When every participant of the round succeeds, the collected responses
are in bijection with the participants, in order. -/
theorem collectRoundResponses_all_ok (G : String → Option Invoker) (timeout : Nat)
    (am : AccessMode) (ps : List Participant) (baseContext : String)
    (H : ∀ p ∈ ps, ∃ inv, G p.cli = some inv ∧ inv.isAvailable = true ∧
         ∀ prompt, ∃ r, inv.invoke prompt timeout am = .ok r) :
    (collectRoundResponses G timeout am ps baseContext).length = ps.length ∧
    (collectRoundResponses G timeout am ps baseContext).map
        (fun resp => (resp.cli, resp.persona)) =
      ps.map (fun p => (p.cli, p.persona)) := by
  induction ps with
  | nil => simp [collectRoundResponses]
  | cons p rest ih =>
    obtain ⟨resp, hresp, hcli, hper⟩ :=
      runParticipantTask_some G timeout am p (p.build_prompt_with_persona baseContext)
        (H p (List.mem_cons_self _ _))
    have hrest := ih (fun q hq => H q (List.mem_cons_of_mem _ hq))
    simp only [collectRoundResponses, List.filterMap_cons, hresp] at *
    simp [hrest.1, hrest.2, hcli, hper]

/-- When every participant succeeds in every round, the round loop
appends one full round per remaining round and never fails. -/
theorem runRoundsAux_all_ok (G : String → Option Invoker) (topic : String)
    (ps : List Participant) (timeout : Nat) (am : AccessMode)
    (hne : ps ≠ [])
    (H : ∀ p ∈ ps, ∃ inv, G p.cli = some inv ∧ inv.isAvailable = true ∧
         ∀ prompt, ∃ r, inv.invoke prompt timeout am = .ok r) :
    ∀ remaining round acc, ∃ extra,
      runRoundsAux G topic ps timeout am remaining round acc = .ok (acc ++ extra) ∧
      extra.length = remaining ∧
      ∀ l ∈ extra, l.length = ps.length ∧
        l.map (fun resp => (resp.cli, resp.persona)) =
          ps.map (fun p => (p.cli, p.persona)) := by
  intro remaining
  induction remaining with
  | zero =>
    intro round acc
    exact ⟨[], by simp [runRoundsAux], rfl, by simp⟩
  | succ n ih =>
    intro round acc
    have hcoll := collectRoundResponses_all_ok G timeout am ps
      (roundContext topic round acc) H
    have hlen0 : collectRoundResponses G timeout am ps (roundContext topic round acc) ≠ [] := by
      intro hc
      rw [hc] at hcoll
      exact hne (List.length_eq_zero.mp hcoll.1.symm)
    obtain ⟨extra, heq, hlen, hall⟩ := ih (round + 1)
      (acc ++ [collectRoundResponses G timeout am ps (roundContext topic round acc)])
    refine ⟨collectRoundResponses G timeout am ps (roundContext topic round acc) :: extra,
      ?_, by simp [hlen], ?_⟩
    · simp only [runRoundsAux]
      rw [if_neg (fun hc => hlen0 (List.isEmpty_iff.mp hc))]
      rw [heq]
      simp
    · intro l hl
      rcases List.mem_cons.mp hl with rfl | hmem
      · exact ⟨hcoll.1, hcoll.2⟩
      · exact hall l hmem

/-- C1: for a non-empty participant list, at least one round, and an
environment in which every participant's backend resolves, is available,
and succeeds on every invocation, run_debate_with_participants returns a
DebateResult whose rounds list has length exactly num_rounds and in which
each round holds exactly one response per participant, in participant
order. -/
theorem C1_debate_result_shape (G : String → Option Invoker) (topic : String)
    (ps : List Participant) (num_rounds timeout : Nat) (am : AccessMode)
    (hne : ps ≠ []) (_hn : 1 ≤ num_rounds)
    (H : ∀ p ∈ ps, ∃ inv, G p.cli = some inv ∧ inv.isAvailable = true ∧
         ∀ prompt, ∃ r, inv.invoke prompt timeout am = .ok r) :
    ∃ res, run_debate_with_participants G topic ps num_rounds timeout am = .ok res ∧
      res.rounds.length = num_rounds ∧
      (∀ rnd ∈ res.rounds, rnd.length = ps.length ∧
        rnd.map (fun resp => (resp.cli, resp.persona)) =
          ps.map (fun p => (p.cli, p.persona))) ∧
      res.topic = topic := by
  obtain ⟨extra, heq, hlen, hall⟩ :=
    runRoundsAux_all_ok G topic ps timeout am hne H num_rounds 1 []
  refine ⟨{ gptengage_version := some cargoPkgVersion, topic := topic,
            rounds := extra, synthesis := none }, ?_, hlen, hall, rfl⟩
  simp only [run_debate_with_participants,
    if_neg (fun hc => hne (List.isEmpty_iff.mp hc))]
  rw [show ([] : List (List RoundResponse)) ++ extra = extra from by simp] at heq
  rw [heq]

/-- The always-succeeding invoker environment used by the C1 witness. -/
def exampleAllOkEnv : String → Option Invoker :=
  fun _ => some { isAvailable := true, invoke := fun _ _ _ => .ok "resp" }

/-- The two participants used by the C1 witness. -/
def exampleParticipants : List Participant :=
  [{ cli := "claude", persona := none, agent_definition := none },
   { cli := "gemini", persona := some "critic", agent_definition := none }]

/-- Witness for C1: with two participants, two rounds and an environment
in which every invocation succeeds, the debate returns two rounds of two
responses each, matching the participants in order. -/
theorem C1_debate_result_shape_witness :
    ∃ res, run_debate_with_participants exampleAllOkEnv "T" exampleParticipants 2 30 .ReadOnly =
        .ok res ∧
      res.rounds.length = 2 ∧
      (∀ rnd ∈ res.rounds, rnd.length = exampleParticipants.length ∧
        rnd.map (fun resp => (resp.cli, resp.persona)) =
          exampleParticipants.map (fun p => (p.cli, p.persona))) ∧
      res.topic = "T" :=
  C1_debate_result_shape exampleAllOkEnv "T" exampleParticipants 2 30 .ReadOnly
    (by decide) (by decide)
    (fun p _ => ⟨{ isAvailable := true, invoke := fun _ _ _ => .ok "resp" }, rfl, rfl,
      fun prompt => ⟨"resp", rfl⟩⟩)
